import Mathlib

/-
  Verification of the go-port-forward supervisor.

  Shallow embedding of the Go sources:
  strings are modelled as `List Char`, time instants as `Nat`
  (milliseconds where a unit matters), `time.Duration` sleeps as
  millisecond `Nat`s, float backoff arithmetic as `ℚ`.
  IO effects (process spawning, sockets, files) are modelled as
  oracle inputs and recorded events.
-/

abbrev Str := List Char

/-- goIsSpace models Go's unicode.IsSpace on ASCII input
(used by strings.TrimSpace and strings.Fields). -/
def goIsSpace (c : Char) : Bool :=
  c = ' ' || c = '\t' || c = '\n' || c = '\x0b' || c = '\x0c' || c = '\r'

/-- reSpace models the regexp character class \s = [\t\n\f\r ]. -/
def reSpace (c : Char) : Bool :=
  c = ' ' || c = '\t' || c = '\n' || c = '\x0c' || c = '\r'

/-- toLowerStr models strings.ToLower on ASCII input. -/
def toLowerStr (l : Str) : Str := l.map Char.toLower

/-- goTrim models strings.TrimSpace. -/
def goTrim (l : Str) : Str :=
  ((l.dropWhile goIsSpace).reverse.dropWhile goIsSpace).reverse

/-- goFields models strings.Fields: split around runs of whitespace,
dropping empty pieces. -/
def goFields (l : Str) : List Str :=
  match l with
  | [] => []
  | c :: cs =>
    if goIsSpace c then goFields cs
    else
      (c :: cs).takeWhile (fun d => !goIsSpace d) ::
        goFields ((c :: cs).dropWhile (fun d => !goIsSpace d))
termination_by l.length
decreasing_by
  · simp
  · simp only [List.dropWhile_cons, List.length_cons]
    have h1 : (!goIsSpace c) = true := by simp_all
    simp only [h1, if_true]
    have hd : ∀ l : Str, (l.dropWhile (fun d => !goIsSpace d)).length ≤ l.length := by
      intro l
      induction l with
      | nil => simp
      | cons a as ih =>
        simp only [List.dropWhile_cons, List.length_cons]
        split
        · omega
        · simp
    have := hd cs
    omega

/-- isSubstr models strings.Contains: needle occurs in haystack. -/
def isSubstr (needle : Str) : Str → Bool
  | [] => needle.isEmpty
  | c :: cs => needle.isPrefixOf (c :: cs) || isSubstr needle cs

/-- joinSpace models strings.Join(words, " "). -/
def joinSpace : List Str → Str
  | [] => []
  | [w] => w
  | w :: ws => w ++ ' ' :: joinSpace ws

/-! ## Port extraction (storage.go, ExtractPorts)

The Go code matches the regexp `(\d+):(\d+)` via FindStringSubmatch:
the leftmost match, with each `\d+` greedy (maximal digit run).
`matchPortsAt` decides whether the pattern matches at the head of the
string (a digit run, a colon, a digit run); `findPortMatch` scans for
the leftmost starting position. -/

def matchPortsAt (l : Str) : Option (Str × Str) :=
  let a := l.takeWhile Char.isDigit
  if a.isEmpty then none
  else
    match l.drop a.length with
    | ':' :: r2 =>
      let b := r2.takeWhile Char.isDigit
      if b.isEmpty then none else some (a, b)
    | _ => none

def findPortMatch : Str → Option (Str × Str)
  | [] => none
  | c :: cs =>
    match matchPortsAt (c :: cs) with
    | some r => some r
    | none => findPortMatch cs

/-- ExtractPorts models storage.go's ExtractPorts: the two capture
groups of the first `(\d+):(\d+)` match, or empty strings. -/
def ExtractPorts (command : Str) : Str × Str :=
  match findPortMatch command with
  | some r => r
  | none => ([], [])

/-! ## Service state (manager.go, package main) -/

def StatusConnecting : String := "connecting"

def StatusHealthy : String := "healthy"

def StatusError : String := "error"

structure ErrorEntry where
  Time : Nat
  Message : Str
deriving DecidableEq

structure LogEntry where
  Time : Nat
  Message : Str
  IsError : Bool
deriving DecidableEq

structure Service where
  Name : Str
  Command : Str
  LocalPort : Str
  RemotePort : Str
  Status : String
  Error : Str
  StartTime : Nat
  ReconnectCount : Nat
  ErrorHistory : List ErrorEntry
  LogHistory : List LogEntry
deriving DecidableEq

/-- addError models Service.addError: append to ErrorHistory, keep the
last 10, set Error and Status. -/
def addError (s : Service) (now : Nat) (msg : Str) : Service :=
  let eh := s.ErrorHistory ++ [⟨now, msg⟩]
  let eh := if eh.length > 10 then eh.drop (eh.length - 10) else eh
  { s with ErrorHistory := eh, Error := msg, Status := StatusError }

/-- addLog models Service.addLog: skip whitespace-only messages, append
to LogHistory, keep the last 100. -/
def addLog (s : Service) (now : Nat) (msg : Str) (isError : Bool) : Service :=
  if goTrim msg = [] then s
  else
    let lh := s.LogHistory ++ [⟨now, msg, isError⟩]
    let lh := if lh.length > 100 then lh.drop (lh.length - 100) else lh
    { s with LogHistory := lh }

/-- extractErrorMessage models manager.go's extractErrorMessage:
truncate to 150 chars (147 + "..."), then collapse whitespace via
strings.Join(strings.Fields(output), " "). -/
def extractErrorMessage (output : Str) : Str :=
  let output := if output.length > 150 then output.take 147 ++ ("...".toList) else output
  joinSpace (goFields output)

/-- errorTokens is the stderr classifier token set of monitorOutput. -/
def errorTokens : List Str :=
  [("error".toList), ("failed".toList), ("unable to".toList), ("cannot".toList),
   ("denied".toList), ("refused".toList), ("not found".toList), ("lost connection".toList)]

/-- errTokenMatch: the lowercased line contains one of the tokens. -/
def errTokenMatch (line : Str) : Bool :=
  errorTokens.any (fun t => isSubstr t (toLowerStr line))

/-- processLine models one iteration of monitorOutput's per-line loop:
trim; skip empty; addLog; "Forwarding from" forces healthy; for stderr
lines matching the token set, classify and record the error.
(The PF_STDERR duplicate print is an environment effect, not modelled.) -/
def processLine (svc : Service) (now : Nat) (rawLine : Str) (isError : Bool) : Service :=
  let line := goTrim rawLine
  if line = [] then svc
  else
    let svc := addLog svc now line isError
    let svc :=
      if isSubstr ("Forwarding from".toList) line then
        if svc.Status ≠ StatusHealthy then
          { svc with Status := StatusHealthy, Error := [] }
        else svc
      else svc
    if isError then
      if errTokenMatch line then addError svc now (extractErrorMessage line)
      else svc
    else svc


/-! ## Security validation (manager.go) -/

/-- isNameChar models the character class of `^[a-zA-Z0-9_-]+$`. -/
def isNameChar (c : Char) : Bool :=
  c.isAlpha || c.isDigit || c = '_' || c = '-'

/-- dangerousChars is the list checked by validateServiceName. -/
def dangerousChars : List Str :=
  [("..".toList), ("/".toList), ("\\".toList), (":".toList), ("*".toList),
   ("?".toList), ("\"".toList), ("<".toList), (">".toList), ("|".toList)]

/-- validateServiceName models manager.go's validateServiceName; a
`some` result is the error message. -/
def validateServiceName (name : Str) : Option String :=
  if name.isEmpty then some ("service name cannot be empty")
  else if name.length > 50 then some ("service name too long (max 50 characters)")
  else
    match dangerousChars.find? (fun ch => isSubstr ch name) with
    | some ch => some ("service name contains invalid character: " ++ ch.asString)
    | none =>
      if name.all isNameChar then none
      else some ("service name can only contain letters, numbers, hyphens, and underscores")

/-- matchGapAt: the regexp `<pre>\s+<post>` matches at the head of `l`
(pre, then one or more \s, then post; post never begins with \s here,
so the greedy run is forced). -/
def matchGapAt (pre post : Str) (l : Str) : Bool :=
  pre.isPrefixOf l &&
    (let r := l.drop pre.length
     let ws := r.takeWhile reSpace
     !ws.isEmpty && post.isPrefixOf (r.drop ws.length))

/-- containsGapPat: the regexp `<pre>\s+<post>` matches somewhere in `l`. -/
def containsGapPat (pre post : Str) : Str → Bool
  | [] => false
  | c :: cs => matchGapAt pre post (c :: cs) || containsGapPat pre post cs

/-- One entry of validateCommand's dangerousPatterns table: the raw
regexp text (used in the error message) and its match predicate. -/
structure DangerPattern where
  raw : String
  matchesIn : Str → Bool

/-- dangerousPatterns models the table in validateCommand. -/
def dangerousPatterns : List DangerPattern :=
  [⟨"rm\\s+-rf", fun l => containsGapPat ("rm".toList) ("-rf".toList) l⟩,
   ⟨"dd\\s+if=", fun l => containsGapPat ("dd".toList) ("if=".toList) l⟩,
   ⟨"mkfs", fun l => isSubstr ("mkfs".toList) l⟩,
   ⟨"format", fun l => isSubstr ("format".toList) l⟩,
   ⟨"del\\s+/f", fun l => containsGapPat ("del".toList) ("/f".toList) l⟩,
   ⟨"shutdown", fun l => isSubstr ("shutdown".toList) l⟩,
   ⟨"reboot", fun l => isSubstr ("reboot".toList) l⟩,
   ⟨"halt", fun l => isSubstr ("halt".toList) l⟩,
   ⟨"poweroff", fun l => isSubstr ("poweroff".toList) l⟩]

/-- validateCommand models manager.go's validateCommand. -/
def validateCommand (command : Str) : Option String :=
  if command.isEmpty then some ("command cannot be empty")
  else if command.length > 1000 then some ("command too long (max 1000 characters)")
  else
    match dangerousPatterns.find? (fun p => p.matchesIn (toLowerStr command)) with
    | some p => some ("command contains potentially dangerous operation: " ++ p.raw)
    | none => none

/-! ## Fleet manager (manager.go, package main)

The registry `m.services` is modelled as an association list with
Go-map insert semantics (`mapInsert` replaces in place or appends).
Process/goroutine effects are recorded in the result flags. -/

abbrev Registry := List (Str × Service)

def regHas (reg : Registry) (name : Str) : Bool :=
  reg.any (fun p => p.1 == name)

def mapInsert (reg : Registry) (name : Str) (svc : Service) : Registry :=
  if regHas reg name then
    reg.map (fun p => if p.1 == name then (name, svc) else p)
  else reg ++ [(name, svc)]

structure StartResult where
  err : Option String
  services : Registry
  spawned : Bool
deriving DecidableEq

/-- managerStart models Manager.Start (manager.go): validate the name,
load the command from storage (`stor`; its `none` is Storage.Get's
"not found" error), validate the command, extract ports, then insert
the new Service and spawn its runner. The killProcessUsingPort call
and the 300 ms sleep are OS effects that never fail the start and do
not touch the registry; they are not modelled. -/
def managerStart (stor : Str → Option Str) (reg : Registry) (name : Str)
    (now : Nat) : StartResult :=
  match validateServiceName name with
  | some e => ⟨some ("invalid service name: " ++ e), reg, false⟩
  | none =>
  match stor name with
  | none => ⟨some ("service '" ++ String.mk name ++ "' not found"), reg, false⟩
  | some command =>
  match validateCommand command with
  | some e => ⟨some ("invalid command for service '" ++ String.mk name ++ "': " ++ e), reg, false⟩
  | none =>
  let ports := ExtractPorts command
  if ports.1.isEmpty then ⟨some ("could not extract ports from command"), reg, false⟩
  else
    ⟨none,
     mapInsert reg name
       ⟨name, command, ports.1, ports.2, StatusConnecting, [], now, 0, [], []⟩,
     true⟩

/-- AddService models Manager.AddService: reject when the name is in
the running registry, reject when storage has no entry, else Start. -/
def AddService (stor : Str → Option Str) (reg : Registry) (name : Str)
    (now : Nat) : StartResult :=
  if regHas reg name then
    ⟨some ("service '" ++ String.mk name ++ "' is already running"), reg, false⟩
  else
    match stor name with
    | none => ⟨some ("service '" ++ String.mk name ++ "' not found in storage"), reg, false⟩
    | some _ => managerStart stor reg name now

/-! ## v2 service package (internal/service: types.go, manager.go,
healthcheck) -/

def StatusConnectingV2 : String := "CONNECTING"

def StatusOnlineV2 : String := "ONLINE"

def StatusReconnectingV2 : String := "RECONNECTING"

def StatusErrorV2 : String := "ERROR"

structure StateV2 where
  Name : Str
  Status : String
  LocalPort : Str
  RemotePort : Str
  Command : Str
  LastError : String
  ErrorTime : Nat
  OnlineTime : Nat
  HealthOK : Bool
  LastHealthy : Nat
deriving DecidableEq

/-- SetStatusV2 models State.SetStatus. -/
def SetStatusV2 (s : StateV2) (now : Nat) (st : String) : StateV2 :=
  let s := { s with Status := st }
  if st = StatusOnlineV2 then
    { s with OnlineTime := now, LastHealthy := now, HealthOK := true }
  else s

/-- SetErrorV2 models State.SetError. -/
def SetErrorV2 (s : StateV2) (now : Nat) (msg : String) : StateV2 :=
  { s with LastError := msg, ErrorTime := now, Status := StatusErrorV2, HealthOK := false }

/-- SetHealthV2 models State.SetHealth. -/
def SetHealthV2 (s : StateV2) (now : Nat) (healthy : Bool) : StateV2 :=
  let s := { s with HealthOK := healthy }
  if healthy then { s with LastHealthy := now } else s

/-- Default from internal/config/config.go. -/
def DefaultHealthCheckFailCount : Nat := 2

structure HealthChecker where
  state : StateV2
  intervalMs : Nat
  timeoutMs : Nat
  failThreshold : Nat
  consecutiveFail : Nat
deriving DecidableEq

/-- hcCheck models HealthChecker.check for one tick; `probe` is the
result of netutil.IsPortOpen (an OS oracle). -/
def hcCheck (h : HealthChecker) (now : Nat) (probe : Bool) : HealthChecker :=
  if h.state.Status ≠ StatusOnlineV2 then { h with consecutiveFail := 0 }
  else if probe then
    { h with consecutiveFail := 0, state := SetHealthV2 h.state now true }
  else
    let h := { h with consecutiveFail := h.consecutiveFail + 1,
                      state := SetHealthV2 h.state now false }
    if h.consecutiveFail ≥ h.failThreshold then
      { h with
        state := SetStatusV2 (SetErrorV2 h.state now ("Connection lost - health check failed"))
                   now StatusReconnectingV2,
        consecutiveFail := 0 }
    else h

/-- portCleanup models the retry loop in the v2 Manager.Start
(attempt = 1..maxRetries): sample netutil.IsPortInUse (the oracle
`inUse`, indexed by sample number `calls`), kill, sleep attempt*500 ms,
and fail if the port is still in use after the last attempt. Returns
the error, the number of kill invocations and the sleeps performed. -/
def portCleanup (inUse : Nat → Bool) (port : Str) (attempt maxRetries calls kills : Nat)
    (sleeps : List Nat) : Option String × Nat × List Nat :=
  if attempt > maxRetries then (none, kills, sleeps)
  else if !(inUse calls) then (none, kills, sleeps)
  else
    let kills := kills + 1
    let sleeps := sleeps ++ [attempt * 500]
    if attempt = maxRetries then
      if inUse (calls + 1) then
        (some ("port " ++ String.mk port ++ " is still in use after " ++ toString maxRetries
               ++ " cleanup attempts - please manually kill processes using this port"),
         kills, sleeps)
      else (none, kills, sleeps)
    else portCleanup inUse port (attempt + 1) maxRetries (calls + 1) kills sleeps
termination_by maxRetries + 1 - attempt
decreasing_by omega

structure StartV2Result where
  err : Option String
  services : List (Str × StateV2)
  spawnedRunner : Bool
  spawnedHealthChecker : Bool
  kills : Nat
  sleepsMs : List Nat
deriving DecidableEq

def mapInsertV2 (reg : List (Str × StateV2)) (name : Str) (st : StateV2) :
    List (Str × StateV2) :=
  if reg.any (fun p => p.1 == name) then
    reg.map (fun p => if p.1 == name then (name, st) else p)
  else reg ++ [(name, st)]

/-- startV2 models the v2 Manager.Start (internal/service/manager.go):
load the definition (`getService`; `none` is GetService's
"service %q not found"), extract ports with the v2 ExtractPorts
(same regexp, with an ok flag, modelled by `findPortMatch`), run the
port cleanup loop with maxRetries = 3, then insert the State and start
the Runner and HealthChecker. -/
def startV2 (getService : Str → Option Str) (inUse : Nat → Bool)
    (reg : List (Str × StateV2)) (name : Str) : StartV2Result :=
  match getService name with
  | none => ⟨some ("service \"" ++ String.mk name ++ "\" not found"), reg, false, false, 0, []⟩
  | some command =>
    match findPortMatch command with
    | none =>
      ⟨some ("failed to extract ports from command: " ++ String.mk command),
       reg, false, false, 0, []⟩
    | some (lp, rp) =>
      match portCleanup inUse lp 1 3 0 0 [] with
      | (some e, kills, sleeps) => ⟨some e, reg, false, false, kills, sleeps⟩
      | (none, kills, sleeps) =>
        ⟨none,
         mapInsertV2 reg name ⟨name, StatusConnectingV2, lp, rp, command, "", 0, 0, false, 0⟩,
         true, true, kills, sleeps⟩

/-! ## Reconnect loop (manager.go, Manager.runService)

The loop is modelled as a trace generator under the assumptions that
the context is never cancelled and that every runOnce spawn returns
(the child keeps dying): each runOnce is recorded as one spawn, the
backoff sleeps are recorded in ms as exact rationals (Go computes the
jitter in float64; `jitter k` models the value rand.Float64()*2-1 of
attempt k, so it lies in [-1, 1]). -/

def maxReconnects : Nat := 10

def baseBackoffMs : Nat := 2000

def maxBackoffMs : Nat := 30000

/-- backoffMsQ is the capped exponential backoff (in ms) before the
c-th respawn: base 2000 ms doubled per attempt, capped at 30000 ms. -/
def backoffMsQ (c : Nat) : ℚ :=
  min ((baseBackoffMs : ℚ) * 2 ^ (c - 1)) (maxBackoffMs : ℚ)

structure RunTrace where
  spawns : Nat
  waitsMs : List ℚ
  finalStatus : String
  finalError : String
deriving DecidableEq

def runServiceLoop (jitter : Nat → ℚ) (reconnectCount : Nat) (isFirstRun : Bool) : RunTrace :=
  if isFirstRun then
    let t := runServiceLoop jitter reconnectCount false
    { t with spawns := t.spawns + 1 }
  else
    let c := reconnectCount + 1
    if c ≥ maxReconnects then
      ⟨0, [], StatusError,
       "Max reconnect attempts (" ++ toString maxReconnects ++ ") exceeded"⟩
    else
      let b := backoffMsQ c
      let w := b + b * (1/10) * jitter c
      let t := runServiceLoop jitter c false
      { t with spawns := t.spawns + 1, waitsMs := w :: t.waitsMs }
termination_by 2 * (maxReconnects - reconnectCount) + (if isFirstRun then 1 else 0)
decreasing_by
  · simp_all only [maxReconnects, if_true, if_false]
    omega
  · simp_all only [maxReconnects, not_le, if_false]
    omega

/-- runService models Manager.runService from its entry. -/
def runService (jitter : Nat → ℚ) : RunTrace :=
  runServiceLoop jitter 0 true

/-! ## UI tick adaptivity (ui.go, UI.Update on tickMsg) -/

/-- hasChangesFn models the change detection in the tickMsg branch:
length difference, else any per-index difference in Status, Error or
ReconnectCount (the Go loop runs only when the lengths are equal). -/
def hasChangesFn (oldS newS : List Service) : Bool :=
  newS.length != oldS.length ||
    (newS.zip oldS).any (fun p =>
      p.1.Status != p.2.Status || p.1.Error != p.2.Error ||
        p.1.ReconnectCount != p.2.ReconnectCount)

/-- nextTickIntervalMs models the dynamic tick rate ladder. -/
def nextTickIntervalMs (sinceMs : Nat) : Nat :=
  if sinceMs > 30000 then 2000
  else if sinceMs > 10000 then 1000
  else if sinceMs > 5000 then 750
  else 500

/-- tickUpdate models the lastActivity/tickInterval bookkeeping of one
tickMsg: lastActivity is reset to `now` when the UI is ready and a
change was detected, and the new interval is computed from the time
since (the updated) lastActivity. Returns (lastActivity, interval). -/
def tickUpdate (ready : Bool) (oldS newS : List Service) (lastActivity now : Nat) :
    Nat × Nat :=
  let hc := hasChangesFn oldS newS
  let la := if ready && hc then now else lastActivity
  (la, nextTickIntervalMs (now - la))

/-! ## kubectl certificate injection (manager.go, injectKubectlCert) -/

/-- certFlagsOf is the injected flag text
`--client-certificate=<cert> --client-key=<key> `. -/
def certFlagsOf (certPath keyPath : Str) : Str :=
  ("--client-certificate=".toList) ++ certPath ++ (" --client-key=".toList)
    ++ keyPath ++ (" ".toList)

/-- matchKubectlAt: the regexp `(kubectl\s+)` matches at the head;
returns the (greedy) matched text and the rest. -/
def matchKubectlAt (l : Str) : Option (Str × Str) :=
  if ("kubectl".toList).isPrefixOf l then
    let r := l.drop 7
    let ws := r.takeWhile reSpace
    if ws.isEmpty then none
    else some (("kubectl".toList) ++ ws, r.drop ws.length)
  else none

def hasKubectlMatch : Str → Bool
  | [] => false
  | c :: cs => (matchKubectlAt (c :: cs)).isSome || hasKubectlMatch cs

/-- replaceAllKubectl models ReplaceAllString with `(kubectl\s+)` and
replacement `${1}<flags>`: leftmost non-overlapping matches, each
replaced by itself followed by the flags. -/
def replaceAllKubectl (flags : Str) (l : Str) : Str :=
  match l with
  | [] => []
  | c :: cs =>
    match hm : matchKubectlAt (c :: cs) with
    | some (m, rest) => m ++ flags ++ replaceAllKubectl flags rest
    | none => c :: replaceAllKubectl flags cs
termination_by l.length
decreasing_by
  · have key : ∀ l₀ m₀ r₀ : Str, matchKubectlAt l₀ = some (m₀, r₀) → r₀.length < l₀.length := by
      intro l₀ m₀ r₀ h
      unfold matchKubectlAt at h
      split at h
      · rename_i hpre
        simp only at h
        split at h
        · exact absurd h (by simp)
        · rename_i hws
          have hlen : 7 ≤ l₀.length := by
            have h2 := List.isPrefixOf_iff_prefix.mp hpre
            have h3 := h2.length_le
            simpa using h3
          have hws1 : 1 ≤ ((l₀.drop 7).takeWhile reSpace).length := by
            cases hn : (l₀.drop 7).takeWhile reSpace with
            | nil => simp [hn] at hws
            | cons a as => simp
          have hwsle : ((l₀.drop 7).takeWhile reSpace).length ≤ (l₀.drop 7).length := by
            have h4 := (List.takeWhile_append_dropWhile reSpace (l₀.drop 7))
            calc ((l₀.drop 7).takeWhile reSpace).length
                ≤ ((l₀.drop 7).takeWhile reSpace).length
                  + ((l₀.drop 7).dropWhile reSpace).length := by omega
              _ = (l₀.drop 7).length := by
                  rw [← List.length_append, h4]
          injection h with h1
          injection h1 with h1 h2
          subst h2
          simp only [List.length_drop] at *
          omega
      · exact absurd h (by simp)
    exact key _ _ _ hm
  · simp

/-- injectKubectlCert models manager.go's injectKubectlCert. -/
def injectKubectlCert (command certPath keyPath : Str) : Str :=
  if isSubstr ("--client-certificate".toList) command then command
  else if !hasKubectlMatch command then command
  else replaceAllKubectl (certFlagsOf certPath keyPath) command

/-! ## Catalog persistence (storage.go: StorageData, LoadData, SaveData)

The JSON documents are modelled by the `Json` inductive (only the
shapes that can occur: strings, arrays, objects). A file read is
`Option Json` (`none` = the file does not exist). Go's
json.Unmarshal into StorageData ignores unknown keys, takes the last
binding of a duplicated key, errors when a present key has the wrong
shape, and leaves `Services = nil` when the key is absent; Marshal of
StorageData omits empty maps (both fields are tagged omitempty) and
emits "services" before "groups". Key order inside an object is
irrelevant to the decoders here; Go's sorted-key marshalling is not
reproduced. -/

inductive Json where
  | str (s : String)
  | arr (elems : List Json)
  | obj (fields : List (String × Json))

def decodeStrField : Json → Option String
  | .str s => some s
  | _ => none

/-- mapMOption: decode every element or fail (the effect of
json.Unmarshal over all entries of a map or array). -/
def mapMOption (f : α → Option β) : List α → Option (List β)
  | [] => some []
  | x :: xs =>
    match f x with
    | none => none
    | some y => (mapMOption f xs).map (fun ys => y :: ys)

/-- decodeStringMap models json.Unmarshal into map[string]string. -/
def decodeStringMap (j : Json) : Option (List (String × String)) :=
  match j with
  | .obj fs => mapMOption (fun p => (decodeStrField p.2).map (fun v => (p.1, v))) fs
  | _ => none

def decodeStrList : Json → Option (List String)
  | .arr xs => mapMOption decodeStrField xs
  | _ => none

/-- decodeGroupsMap models json.Unmarshal into map[string][]string. -/
def decodeGroupsMap (j : Json) : Option (List (String × List String)) :=
  match j with
  | .obj fs => mapMOption (fun p => (decodeStrList p.2).map (fun v => (p.1, v))) fs
  | _ => none

/-- jlookup: last binding of a key wins, as in Go's object decoding. -/
def jlookup (fs : List (String × Json)) (k : String) : Option Json :=
  match fs with
  | [] => none
  | (k', v) :: rest =>
    match jlookup rest k with
    | some r => some r
    | none => if k' = k then some v else none

/-- unmarshalStorageData models json.Unmarshal(data, &StorageData):
`none` is a decode error; the inner options tell a missing key (Go nil
map) from a present one. -/
def unmarshalStorageData (j : Json) :
    Option (Option (List (String × String)) × Option (List (String × List String))) :=
  match j with
  | .obj fs =>
    match jlookup fs ("services") with
    | none =>
      match jlookup fs ("groups") with
      | none => some (none, none)
      | some g => (decodeGroupsMap g).map (fun gg => (none, some gg))
    | some s =>
      match decodeStringMap s with
      | none => none
      | some ss =>
        match jlookup fs ("groups") with
        | none => some (some ss, none)
        | some g => (decodeGroupsMap g).map (fun gg => (some ss, some gg))
  | _ => none

structure StorageData where
  Services : List (String × String)
  Groups : List (String × List String)
deriving DecidableEq

/-- LoadData models Storage.LoadData: a missing file is an empty
catalog; try the nested shape first (accepted when decoding succeeded
and the "services" key was present), else fall back to the legacy flat
map[string]string shape. -/
def LoadData (file : Option Json) : Option StorageData :=
  match file with
  | none => some ⟨[], []⟩
  | some j =>
    match unmarshalStorageData j with
    | some (some s, g) => some ⟨s, g.getD []⟩
    | _ =>
      match decodeStringMap j with
      | some m => some ⟨m, []⟩
      | none => none

def encodeStringMap (m : List (String × String)) : Json :=
  .obj (m.map (fun p => (p.1, .str p.2)))

def encodeGroups (g : List (String × List String)) : Json :=
  .obj (g.map (fun p => (p.1, .arr (p.2.map Json.str))))

/-- SaveData models Storage.SaveData: MarshalIndent of StorageData,
with the omitempty tags dropping empty maps. -/
def SaveData (d : StorageData) : Json :=
  .obj ((if d.Services.isEmpty then [] else [("services", encodeStringMap d.Services)]) ++
        (if d.Groups.isEmpty then [] else [("groups", encodeGroups d.Groups)]))

/-! ## Remaining definitions used by the theorems -/

/-- A history operation on a Service (time is an input, as in the
source where the entry timestamps time.Now()). -/
inductive HistOp where
  | err (now : Nat) (msg : Str)
  | log (now : Nat) (msg : Str) (isError : Bool)

def applyHistOp (s : Service) : HistOp → Service
  | .err n m => addError s n m
  | .log n m e => addLog s n m e

def applyHistOps (s : Service) (ops : List HistOp) : Service :=
  ops.foldl applyHistOp s

/-- hasPortPair: the command contains a substring a:b with a and b
non-empty runs of decimal digits (the claim-side predicate). -/
def hasPortPair (s : Str) : Prop :=
  ∃ x a b y : Str, s = x ++ (a ++ ':' :: (b ++ y)) ∧ a ≠ [] ∧ b ≠ [] ∧
    (∀ c ∈ a, c.isDigit = true) ∧ (∀ c ∈ b, c.isDigit = true)

/-- A storage with the single entry db ↦ "ssh -L 5432:5432 db". -/
def storFix : Str → Option Str :=
  fun n => if n == ("db".toList) then some ("ssh -L 5432:5432 db".toList) else none

/-- A running service registered under the name db. -/
def svcRunning : Service :=
  ⟨("db".toList), ("old-command 1:2".toList), ("1".toList), ("2".toList),
   StatusHealthy, [], 0, 3, [], []⟩

/-! # Theorems -/

theorem addError_LogHistory (s : Service) (n : Nat) (m : Str) :
    (addError s n m).LogHistory = s.LogHistory := rfl

theorem addLog_ErrorHistory (s : Service) (n : Nat) (m : Str) (e : Bool) :
    (addLog s n m e).ErrorHistory = s.ErrorHistory := by
  simp only [addLog]
  split
  · rfl
  · split <;> rfl

theorem addError_len (s : Service) (n : Nat) (m : Str)
    (h : s.ErrorHistory.length ≤ 10) : (addError s n m).ErrorHistory.length ≤ 10 := by
  simp only [addError]
  split
  · simp only [List.length_drop]
    omega
  · simp only [List.length_append, List.length_singleton] at *
    omega

theorem addLog_len (s : Service) (n : Nat) (m : Str) (e : Bool)
    (h : s.LogHistory.length ≤ 100) : (addLog s n m e).LogHistory.length ≤ 100 := by
  simp only [addLog]
  split
  · exact h
  · split
    · simp only [List.length_drop]
      omega
    · simp only [List.length_append, List.length_singleton] at *
      omega

/-- C6: every sequence of addError/addLog operations keeps
len(errorHistory) ≤ 10 and len(logHistory) ≤ 100, and an insertion at
capacity drops exactly the oldest entry, appending the new one; below
capacity it appends without dropping. -/
theorem C6_ring_buffers (s : Service) (ops : List HistOp)
    (h1 : s.ErrorHistory.length ≤ 10) (h2 : s.LogHistory.length ≤ 100) :
    ((applyHistOps s ops).ErrorHistory.length ≤ 10 ∧
     (applyHistOps s ops).LogHistory.length ≤ 100)
    ∧ (∀ t : Service, ∀ n : Nat, ∀ m : Str, t.ErrorHistory.length = 10 →
        (addError t n m).ErrorHistory = t.ErrorHistory.drop 1 ++ [⟨n, m⟩])
    ∧ (∀ t : Service, ∀ n : Nat, ∀ m : Str, t.ErrorHistory.length < 10 →
        (addError t n m).ErrorHistory = t.ErrorHistory ++ [⟨n, m⟩])
    ∧ (∀ t : Service, ∀ n : Nat, ∀ m : Str, ∀ e : Bool, goTrim m ≠ [] →
        t.LogHistory.length = 100 →
        (addLog t n m e).LogHistory = t.LogHistory.drop 1 ++ [⟨n, m, e⟩])
    ∧ (∀ t : Service, ∀ n : Nat, ∀ m : Str, ∀ e : Bool, goTrim m ≠ [] →
        t.LogHistory.length < 100 →
        (addLog t n m e).LogHistory = t.LogHistory ++ [⟨n, m, e⟩]) := by
  refine ⟨?_, ?_, ?_, ?_, ?_⟩
  · induction ops generalizing s with
    | nil => exact ⟨h1, h2⟩
    | cons op ops ih =>
      simp only [applyHistOps, List.foldl_cons] at *
      cases op with
      | err n m =>
        exact ih (addError s n m) (addError_len s n m h1)
          (by rw [addError_LogHistory]; exact h2)
      | log n m e =>
        exact ih (addLog s n m e)
          (by rw [addLog_ErrorHistory]; exact h1) (addLog_len s n m e h2)
  · intro t n m h
    simp only [addError]
    have hlen : (t.ErrorHistory ++ [(⟨n, m⟩ : ErrorEntry)]).length = 11 := by
      simp [h]
    rw [if_pos (by omega), hlen]
    rw [show 11 - 10 = 1 from rfl]
    rw [List.drop_append_of_le_length (by omega)]
  · intro t n m h
    simp only [addError]
    rw [if_neg (by simp; omega)]
  · intro t n m e hm h
    simp only [addLog]
    rw [if_neg hm]
    have hlen : (t.LogHistory ++ [(⟨n, m, e⟩ : LogEntry)]).length = 101 := by
      simp [h]
    simp only []
    rw [if_pos (by omega), hlen]
    rw [show 101 - 100 = 1 from rfl]
    rw [List.drop_append_of_le_length (by omega)]
  · intro t n m e hm h
    simp only [addLog]
    rw [if_neg hm]
    simp only []
    rw [if_neg (by simp; omega)]

theorem C6_ring_buffers_witness :
    (applyHistOps svcRunning
      [HistOp.err 1 ("boom".toList), HistOp.log 2 ("hello".toList) false]).ErrorHistory.length ≤ 10 :=
  (C6_ring_buffers svcRunning
    [HistOp.err 1 ("boom".toList), HistOp.log 2 ("hello".toList) false]
    (by decide) (by decide)).1.1

theorem SetStatusV2_Status (s : StateV2) (now : Nat) (st : String) :
    (SetStatusV2 s now st).Status = st := by
  simp only [SetStatusV2]
  split <;> rfl

theorem SetStatusV2_LastError (s : StateV2) (now : Nat) (st : String) :
    (SetStatusV2 s now st).LastError = s.LastError := by
  simp only [SetStatusV2]
  split <;> rfl

/-- C4: with the default failThreshold 2, two consecutive probe
failures while the status is ONLINE move the service to RECONNECTING
with a lastError containing "Connection lost" (and reset the streak);
a single probe success resets the streak to zero and leaves the
status ONLINE. -/
theorem C4_health_loop (h : HealthChecker) (now1 now2 now3 : Nat)
    (hth : h.failThreshold = DefaultHealthCheckFailCount)
    (hon : h.state.Status = StatusOnlineV2) :
    (h.consecutiveFail = 0 →
      ((hcCheck (hcCheck h now1 false) now2 false).state.Status = StatusReconnectingV2 ∧
       isSubstr ("Connection lost".toList)
         ((hcCheck (hcCheck h now1 false) now2 false).state.LastError.toList) = true ∧
       (hcCheck (hcCheck h now1 false) now2 false).consecutiveFail = 0))
    ∧ ((hcCheck h now3 true).consecutiveFail = 0 ∧
       (hcCheck h now3 true).state.Status = StatusOnlineV2) := by
  constructor
  · intro h0
    have e1 : hcCheck h now1 false =
        { h with consecutiveFail := 1, state := { h.state with HealthOK := false } } := by
      simp only [hcCheck, hon, ne_eq, not_true_eq_false, if_false, Bool.false_eq_true,
        SetHealthV2, hth, h0, DefaultHealthCheckFailCount]
      norm_num
    rw [e1]
    have e2 : hcCheck
        ({ h with consecutiveFail := 1, state := { h.state with HealthOK := false } })
        now2 false =
        { h with consecutiveFail := 0, state := SetStatusV2 (SetErrorV2 ({ h.state with HealthOK := false }) now2 ("Connection lost - health check failed")) now2 StatusReconnectingV2 } := by
      simp only [hcCheck, hon, ne_eq, not_true_eq_false, if_false, Bool.false_eq_true,
        SetHealthV2, hth, DefaultHealthCheckFailCount]
      norm_num
    rw [e2]
    refine ⟨?_, ?_, ?_⟩
    · exact SetStatusV2_Status _ _ _
    · rw [SetStatusV2_LastError]
      show isSubstr ("Connection lost".toList)
        (("Connection lost - health check failed" : String).toList) = true
      decide
    · rfl
  · constructor
    · simp [hcCheck, hon]
    · simp [hcCheck, hon, SetHealthV2]

theorem C4_health_loop_witness :
    ((hcCheck (hcCheck
        ⟨⟨("db".toList), StatusOnlineV2, ("5432".toList), ("5432".toList),
          ("c".toList), "", 0, 0, true, 0⟩, 2000, 1000, DefaultHealthCheckFailCount, 0⟩
        1 false) 2 false).state.Status = StatusReconnectingV2) :=
  ((C4_health_loop
    ⟨⟨("db".toList), StatusOnlineV2, ("5432".toList), ("5432".toList),
      ("c".toList), "", 0, 0, true, 0⟩, 2000, 1000, DefaultHealthCheckFailCount, 0⟩
    1 2 3 rfl rfl).1 rfl).1

/-- C9: the tick interval is 500 ms for idle time ≤ 5 s, 750 ms
between 5 and 10 s, 1000 ms between 10 and 30 s, 2000 ms above 30 s;
with no detected change lastActivity is kept, and any state change
(length or per-index status/error/reconnect count) resets
lastActivity to now, collapsing the interval to 500 ms. -/
theorem C9_tick_adaptivity (ready : Bool) (oldS newS : List Service) (la now : Nat) :
    (hasChangesFn oldS newS = false →
       tickUpdate ready oldS newS la now = (la, nextTickIntervalMs (now - la)))
    ∧ (now - la ≤ 5000 → nextTickIntervalMs (now - la) = 500)
    ∧ (5000 < now - la → now - la ≤ 10000 → nextTickIntervalMs (now - la) = 750)
    ∧ (10000 < now - la → now - la ≤ 30000 → nextTickIntervalMs (now - la) = 1000)
    ∧ (30000 < now - la → nextTickIntervalMs (now - la) = 2000)
    ∧ (ready = true → hasChangesFn oldS newS = true →
         tickUpdate ready oldS newS la now = (now, 500))
    ∧ (newS.length ≠ oldS.length → hasChangesFn oldS newS = true)
    ∧ (∀ i : Nat, ∀ hi : i < newS.length, ∀ hj : i < oldS.length,
         (newS[i].Status ≠ oldS[i].Status ∨ newS[i].Error ≠ oldS[i].Error ∨
          newS[i].ReconnectCount ≠ oldS[i].ReconnectCount) →
         hasChangesFn oldS newS = true) := by
  refine ⟨?_, ?_, ?_, ?_, ?_, ?_, ?_, ?_⟩
  · intro h
    simp [tickUpdate, h]
  · intro h
    simp only [nextTickIntervalMs]
    split_ifs <;> omega
  · intro h1 h2
    simp only [nextTickIntervalMs]
    split_ifs <;> omega
  · intro h1 h2
    simp only [nextTickIntervalMs]
    split_ifs <;> omega
  · intro h
    simp only [nextTickIntervalMs]
    split_ifs <;> omega
  · intro h1 h2
    simp only [tickUpdate, h1, h2, Bool.and_self, if_true]
    rw [Nat.sub_self]
    rfl
  · intro h
    simp only [hasChangesFn, Bool.or_eq_true, bne_iff_ne]
    exact Or.inl h
  · intro i hi hj hdiff
    simp only [hasChangesFn, Bool.or_eq_true]
    right
    rw [List.any_eq_true]
    have hz : i < (newS.zip oldS).length := by
      rw [List.length_zip]
      omega
    refine ⟨(newS.zip oldS)[i], List.getElem_mem hz, ?_⟩
    rw [List.getElem_zip]
    simp only [Bool.or_eq_true, bne_iff_ne]
    tauto

theorem C9_tick_adaptivity_witness :
    tickUpdate true [] [svcRunning] 0 40000 = (40000, 500) ∧
    nextTickIntervalMs (40000 - 0) = 2000 ∧
    nextTickIntervalMs (8000 - 2000) = 750 ∧
    nextTickIntervalMs (22000 - 2000) = 1000 ∧
    nextTickIntervalMs (4000 - 2000) = 500 ∧
    tickUpdate true [svcRunning] [svcRunning] 2000 4000 = (2000, 500) :=
  ⟨(C9_tick_adaptivity true [] [svcRunning] 0 40000).2.2.2.2.2.1 rfl (by decide),
   (C9_tick_adaptivity true [] [svcRunning] 0 40000).2.2.2.2.1 (by decide),
   (C9_tick_adaptivity true [] [svcRunning] 2000 8000).2.2.1 (by decide) (by decide),
   (C9_tick_adaptivity true [] [svcRunning] 2000 22000).2.2.2.1 (by decide) (by decide),
   (C9_tick_adaptivity true [] [svcRunning] 2000 4000).2.1 (by decide),
   (C9_tick_adaptivity true [svcRunning] [svcRunning] 2000 4000).1 (by decide)⟩

/-- C2: with the local port extracted, the v2 start performs at most 3
kill attempts, sleeping attempt*500 ms (500, 1000, 1500) after each;
if the port is still in use after the third attempt it returns the
"still in use after 3 cleanup attempts" error, leaves the registry
unchanged and spawns no Runner; in general the sleeps performed are
the prefix of [500, 1000, 1500] matching the number of kills. -/
theorem C2_port_reclaim (getService : Str → Option Str) (inUse : Nat → Bool)
    (reg : List (Str × StateV2)) (name command lp rp : Str)
    (hs : getService name = some command)
    (hp : findPortMatch command = some (lp, rp)) :
    ((∀ k : Nat, inUse k = true) →
      startV2 getService inUse reg name =
        ⟨some ("port " ++ String.mk lp ++ " is still in use after 3 cleanup attempts - please manually kill processes using this port"),
         reg, false, false, 3, [500, 1000, 1500]⟩)
    ∧ ((startV2 getService inUse reg name).kills ≤ 3 ∧
       (startV2 getService inUse reg name).sleepsMs =
         (List.range (startV2 getService inUse reg name).kills).map (fun i => (i + 1) * 500)) := by
  constructor
  · intro hAll
    simp only [startV2, hs, hp]
    have e : portCleanup inUse lp 1 3 0 0 [] =
        (some ("port " ++ String.mk lp ++ " is still in use after 3 cleanup attempts - please manually kill processes using this port"), 3, [500, 1000, 1500]) := by
      rw [portCleanup, if_neg (by omega), if_neg (by simp [hAll])]
      rw [if_neg (by omega)]
      rw [portCleanup, if_neg (by omega), if_neg (by simp [hAll])]
      rw [if_neg (by omega)]
      rw [portCleanup, if_neg (by omega), if_neg (by simp [hAll])]
      rw [if_pos rfl, if_pos (hAll 3)]
      refine Prod.ext ?_ (by norm_num)
      simp only [Option.some.injEq]
      rw [show toString (3 : Nat) = ("3" : String) from rfl]
      simp only [String.append_assoc]
      congr 1
    rw [e]
  · cases h0 : inUse 0 with
    | false =>
      simp only [startV2, hs, hp]
      rw [portCleanup, if_neg (by omega), if_pos (by simp [h0])]
      simp
    | true =>
      cases h1 : inUse 1 with
      | false =>
        simp only [startV2, hs, hp]
        rw [portCleanup, if_neg (by omega), if_neg (by simp [h0]), if_neg (by omega)]
        rw [portCleanup, if_neg (by omega), if_pos (by simp [h1])]
        simp [List.range_succ]
      | true =>
        cases h2 : inUse 2 with
        | false =>
          simp only [startV2, hs, hp]
          rw [portCleanup, if_neg (by omega), if_neg (by simp [h0]), if_neg (by omega)]
          rw [portCleanup, if_neg (by omega), if_neg (by simp [h1]), if_neg (by omega)]
          rw [portCleanup, if_neg (by omega), if_pos (by simp [h2])]
          simp [List.range_succ]
        | true =>
          cases h3 : inUse 3 with
          | false =>
            simp only [startV2, hs, hp]
            rw [portCleanup, if_neg (by omega), if_neg (by simp [h0]), if_neg (by omega)]
            rw [portCleanup, if_neg (by omega), if_neg (by simp [h1]), if_neg (by omega)]
            rw [portCleanup, if_neg (by omega), if_neg (by simp [h2]), if_pos rfl]
            rw [if_neg (by simp [h3])]
            simp [List.range_succ]
          | true =>
            simp only [startV2, hs, hp]
            rw [portCleanup, if_neg (by omega), if_neg (by simp [h0]), if_neg (by omega)]
            rw [portCleanup, if_neg (by omega), if_neg (by simp [h1]), if_neg (by omega)]
            rw [portCleanup, if_neg (by omega), if_neg (by simp [h2]), if_pos rfl]
            rw [if_pos h3]
            simp [List.range_succ]

theorem C2_port_reclaim_witness :
    startV2 (fun _ => some ("ssh -L 5432:5432 db".toList)) (fun _ => true) []
      ("db".toList) =
      ⟨some ("port " ++ String.mk ("5432".toList) ++ " is still in use after 3 cleanup attempts - please manually kill processes using this port"),
       [], false, false, 3, [500, 1000, 1500]⟩ :=
  (C2_port_reclaim (fun _ => some ("ssh -L 5432:5432 db".toList)) (fun _ => true) []
    ("db".toList) ("ssh -L 5432:5432 db".toList) ("5432".toList) ("5432".toList)
    rfl (by decide)).1 (fun _ => rfl)

theorem backoffMsQ_nonneg (c : Nat) : 0 ≤ backoffMsQ c := by
  unfold backoffMsQ
  refine le_min ?_ ?_ <;> positivity

theorem backoff_jitter_bound (b j : ℚ) (hb : 0 ≤ b) (hj : |j| ≤ 1) :
    |b + b * (1 / 10) * j - b| ≤ b / 10 := by
  rw [add_sub_cancel_left, abs_mul]
  have h1 : |b * (1 / 10)| = b / 10 := by
    rw [abs_of_nonneg (by positivity)]
    ring
  rw [h1]
  calc b / 10 * |j| ≤ b / 10 * 1 := by
        exact mul_le_mul_of_nonneg_left hj (by positivity)
    _ = b / 10 := mul_one _

/-- C3: with each runOnce returning (the child keeps dying) and no
cancellation, the reconnect loop spawns 10 times in total; before the
k-th respawn (k = 1..9) it waits backoffMsQ k = min(2s·2^(k-1), 30s)
milliseconds within ±10% jitter; when reconnectCount reaches 10 the
status becomes "error" with lastError "Max reconnect attempts (10)
exceeded" and the loop returns, so no further spawn occurs. -/
theorem C3_reconnect_backoff (jitter : Nat → ℚ) (hj : ∀ k, |jitter k| ≤ 1) :
    (runService jitter).spawns = 10 ∧
    (runService jitter).finalStatus = StatusError ∧
    (runService jitter).finalError = "Max reconnect attempts (10) exceeded" ∧
    (runService jitter).waitsMs.length = 9 ∧
    (∀ k : Nat, k < 9 →
      (runService jitter).waitsMs.getD k 0 =
        backoffMsQ (k + 1) + backoffMsQ (k + 1) * (1 / 10) * jitter (k + 1) ∧
      |(runService jitter).waitsMs.getD k 0 - backoffMsQ (k + 1)| ≤ backoffMsQ (k + 1) / 10 ∧
      backoffMsQ (k + 1) = min ((2000 : ℚ) * 2 ^ k) 30000) := by
  have e : runService jitter =
      ⟨10,
       [backoffMsQ 1 + backoffMsQ 1 * (1 / 10) * jitter 1,
        backoffMsQ 2 + backoffMsQ 2 * (1 / 10) * jitter 2,
        backoffMsQ 3 + backoffMsQ 3 * (1 / 10) * jitter 3,
        backoffMsQ 4 + backoffMsQ 4 * (1 / 10) * jitter 4,
        backoffMsQ 5 + backoffMsQ 5 * (1 / 10) * jitter 5,
        backoffMsQ 6 + backoffMsQ 6 * (1 / 10) * jitter 6,
        backoffMsQ 7 + backoffMsQ 7 * (1 / 10) * jitter 7,
        backoffMsQ 8 + backoffMsQ 8 * (1 / 10) * jitter 8,
        backoffMsQ 9 + backoffMsQ 9 * (1 / 10) * jitter 9],
       StatusError, "Max reconnect attempts (" ++ toString maxReconnects ++ ") exceeded"⟩ := by
    rw [runService]
    rw [runServiceLoop]
    norm_num [maxReconnects]
    rw [runServiceLoop]
    norm_num [maxReconnects]
    rw [runServiceLoop]
    norm_num [maxReconnects]
    rw [runServiceLoop]
    norm_num [maxReconnects]
    rw [runServiceLoop]
    norm_num [maxReconnects]
    rw [runServiceLoop]
    norm_num [maxReconnects]
    rw [runServiceLoop]
    norm_num [maxReconnects]
    rw [runServiceLoop]
    norm_num [maxReconnects]
    rw [runServiceLoop]
    norm_num [maxReconnects]
    rw [runServiceLoop]
    norm_num [maxReconnects]
    rw [runServiceLoop]
    norm_num [maxReconnects]
  rw [e]
  refine ⟨rfl, rfl, rfl, rfl, ?_⟩
  intro k hk
  interval_cases k <;>
    exact ⟨rfl, backoff_jitter_bound _ _ (backoffMsQ_nonneg _) (hj _),
      by norm_num [backoffMsQ, baseBackoffMs, maxBackoffMs]⟩

theorem C3_reconnect_backoff_witness :
    (runService (fun _ => 0)).spawns = 10 ∧
    (runService (fun _ => 0)).finalError = "Max reconnect attempts (10) exceeded" :=
  ⟨(C3_reconnect_backoff (fun _ => 0) (fun _ => by norm_num)).1,
   (C3_reconnect_backoff (fun _ => 0) (fun _ => by norm_num)).2.2.1⟩

/-- C1 counterexample: with "db" already present in the registry,
Manager.Start("db") returns no error, spawns a runner and replaces the
registry entry — it does not reject the duplicate. -/
theorem C1_counterexample :
    regHas [(("db".toList), svcRunning)] ("db".toList) = true ∧
    (managerStart storFix [(("db".toList), svcRunning)] ("db".toList) 5).err = none ∧
    (managerStart storFix [(("db".toList), svcRunning)] ("db".toList) 5).spawned = true ∧
    (managerStart storFix [(("db".toList), svcRunning)] ("db".toList) 5).services ≠
      [(("db".toList), svcRunning)] := by
  decide

/-- C1 (amended): duplicate-start rejection lives in
Manager.AddService, not Manager.Start: while name is present,
AddService returns the "is already running" error, leaves the registry
unchanged and spawns nothing; Manager.Start itself performs no
duplicate check — on a valid command it succeeds and replaces the
existing entry with a fresh Service. -/
theorem C1_addservice_rejects (stor : Str → Option Str) (reg : Registry)
    (name : Str) (now : Nat) (h : regHas reg name = true) :
    AddService stor reg name now =
      ⟨some ("service '" ++ String.mk name ++ "' is already running"), reg, false⟩
    ∧ (∀ command : Str, stor name = some command →
        validateServiceName name = none → validateCommand command = none →
        (ExtractPorts command).1 ≠ [] →
        managerStart stor reg name now =
          ⟨none,
           mapInsert reg name
             ⟨name, command, (ExtractPorts command).1, (ExtractPorts command).2,
              StatusConnecting, [], now, 0, [], []⟩,
           true⟩) := by
  constructor
  · simp [AddService, h]
  · intro command hc hvn hvc hp
    simp only [managerStart, hvn, hc, hvc]
    rw [if_neg (by simpa using hp)]

theorem C1_addservice_rejects_witness :
    AddService storFix [(("db".toList), svcRunning)] ("db".toList) 5 =
      ⟨some ("service '" ++ String.mk ("db".toList) ++ "' is already running"),
       [(("db".toList), svcRunning)], false⟩ :=
  (C1_addservice_rejects storFix [(("db".toList), svcRunning)] ("db".toList) 5
    (by decide)).1

theorem isSubstr_iff (n : Str) : ∀ l : Str, isSubstr n l = true ↔ n <:+: l := by
  intro l
  induction l with
  | nil =>
    simp only [isSubstr, List.isEmpty_iff]
    constructor
    · intro h
      simp [h]
    · intro h
      have := h.sublist.length_le
      simp at this
      simp [this]
  | cons c cs ih =>
    simp only [isSubstr, Bool.or_eq_true, List.isPrefixOf_iff_prefix, ih,
      List.infix_cons_iff]

theorem replaceAllKubectl_has_flags (flags tok : Str) (ht : tok <:+: flags) :
    ∀ l : Str, hasKubectlMatch l = true →
      tok <:+: replaceAllKubectl flags l := by
  have main : ∀ n : Nat, ∀ l : Str, l.length ≤ n → hasKubectlMatch l = true →
      tok <:+: replaceAllKubectl flags l := by
    intro n
    induction n with
    | zero =>
      intro l hl hm
      cases l with
      | nil => simp [hasKubectlMatch] at hm
      | cons c cs => simp at hl
    | succ n ih =>
      intro l hl hm
      cases l with
      | nil => simp [hasKubectlMatch] at hm
      | cons c cs =>
        rw [replaceAllKubectl]
        split
        · exact ht.trans (List.infix_append _ _ _)
        · rename_i heq
          have hm2 : hasKubectlMatch cs = true := by
            simp only [hasKubectlMatch, heq, Option.isSome_none, Bool.false_or] at hm
            exact hm
          have hrec := ih cs (by simp at hl; omega) hm2
          have hsfx := List.IsSuffix.isInfix (List.suffix_cons c (replaceAllKubectl flags cs))
          exact hrec.trans hsfx
  exact fun l => main l.length l le_rfl

/-- C10: injectKubectlCert is idempotent; a command already containing
"--client-certificate" is returned unchanged, and so is a command with
no "kubectl" token followed by whitespace. -/
theorem C10_inject_idempotent (command certPath keyPath : Str) :
    injectKubectlCert (injectKubectlCert command certPath keyPath) certPath keyPath =
      injectKubectlCert command certPath keyPath
    ∧ (isSubstr ("--client-certificate".toList) command = true →
        injectKubectlCert command certPath keyPath = command)
    ∧ (hasKubectlMatch command = false →
        injectKubectlCert command certPath keyPath = command) := by
  have hA : ∀ c cert key : Str, isSubstr ("--client-certificate".toList) c = true →
      injectKubectlCert c cert key = c := by
    intro c cert key h
    unfold injectKubectlCert
    rw [if_pos h]
  have hB : ∀ c cert key : Str, hasKubectlMatch c = false →
      injectKubectlCert c cert key = c := by
    intro c cert key h
    unfold injectKubectlCert
    by_cases hs : isSubstr ("--client-certificate".toList) c = true
    · rw [if_pos hs]
    · rw [if_neg hs, if_pos (by simp [h])]
  refine ⟨?_, hA command certPath keyPath, hB command certPath keyPath⟩
  by_cases h1 : isSubstr ("--client-certificate".toList) command = true
  · rw [hA command certPath keyPath h1]
    exact hA command certPath keyPath h1
  · by_cases h2 : hasKubectlMatch command = true
    · have hr : injectKubectlCert command certPath keyPath =
          replaceAllKubectl (certFlagsOf certPath keyPath) command := by
        unfold injectKubectlCert
        rw [if_neg h1, if_neg (by simp [h2])]
      have htok0 : ("--client-certificate".toList) <+:
          ("--client-certificate=".toList) := by decide
      have htok : ("--client-certificate".toList) <:+: certFlagsOf certPath keyPath := by
        unfold certFlagsOf
        exact List.IsPrefix.isInfix
          ((((htok0.trans (List.prefix_append _ certPath)).trans
            (List.prefix_append _ _)).trans (List.prefix_append _ _)).trans
            (List.prefix_append _ _))
      have hcontains : isSubstr ("--client-certificate".toList)
          (replaceAllKubectl (certFlagsOf certPath keyPath) command) = true :=
        (isSubstr_iff _ _).mpr (replaceAllKubectl_has_flags _ _ htok command h2)
      rw [hr]
      exact hA _ certPath keyPath hcontains
    · have h2b : hasKubectlMatch command = false := by simpa using h2
      rw [hB command certPath keyPath h2b]
      exact hB command certPath keyPath h2b

theorem C10_inject_idempotent_witness :
    injectKubectlCert ("kubectl --client-certificate=/c exec".toList)
        ("/c".toList) ("/k".toList) =
      ("kubectl --client-certificate=/c exec".toList) ∧
    injectKubectlCert ("echo hi".toList) ("/c".toList) ("/k".toList) =
      ("echo hi".toList) :=
  ⟨(C10_inject_idempotent ("kubectl --client-certificate=/c exec".toList)
      ("/c".toList) ("/k".toList)).2.1 (by decide),
   (C10_inject_idempotent ("echo hi".toList) ("/c".toList) ("/k".toList)).2.2
      (by decide)⟩

theorem mapMOption_cons (f : α → Option β) (x : α) (xs : List α) :
    mapMOption f (x :: xs) =
      match f x with
      | none => none
      | some y => (mapMOption f xs).map (fun ys => y :: ys) := rfl

theorem mapM_dec_enc (m : List (String × String)) :
    mapMOption (fun p => (decodeStrField p.2).map (fun v => (p.1, v)))
      (m.map (fun p => (p.1, Json.str p.2))) = some m := by
  induction m with
  | nil => rfl
  | cons p ps ih =>
    rw [List.map_cons]
    rw [show mapMOption (fun p => (decodeStrField p.2).map (fun v => (p.1, v)))
        ((p.1, Json.str p.2) :: List.map (fun p => (p.1, Json.str p.2)) ps) =
      (mapMOption (fun p => (decodeStrField p.2).map (fun v => (p.1, v)))
        (List.map (fun p => (p.1, Json.str p.2)) ps)).map
          (fun ys => (p.1, p.2) :: ys) from rfl]
    rw [ih]
    rfl

theorem mapM_decList_enc (xs : List String) :
    mapMOption decodeStrField (xs.map Json.str) = some xs := by
  induction xs with
  | nil => rfl
  | cons x xs ih =>
    rw [List.map_cons, mapMOption_cons]
    simp only [decodeStrField, ih]
    rfl

theorem mapM_decGroups_enc (g : List (String × List String)) :
    mapMOption (fun p => (decodeStrList p.2).map (fun v => (p.1, v)))
      (g.map (fun p => (p.1, Json.arr (p.2.map Json.str)))) = some g := by
  induction g with
  | nil => rfl
  | cons p ps ih =>
    rw [List.map_cons, mapMOption_cons]
    have hx : (decodeStrList (Json.arr (p.2.map Json.str))).map
        (fun v => (p.1, v)) = some (p.1, p.2) := by
      rw [show decodeStrList (Json.arr (p.2.map Json.str)) =
        mapMOption decodeStrField (p.2.map Json.str) from rfl]
      rw [mapM_decList_enc]
      rfl
    simp only [hx, ih]
    rfl

theorem decodeStringMap_encode (m : List (String × String)) :
    decodeStringMap (encodeStringMap m) = some m := by
  simp only [decodeStringMap, encodeStringMap]
  exact mapM_dec_enc m

theorem decodeGroupsMap_encode (g : List (String × List String)) :
    decodeGroupsMap (encodeGroups g) = some g := by
  simp only [decodeGroupsMap, encodeGroups]
  exact mapM_decGroups_enc g

theorem jlookup_map_str (m : List (String × String)) (k : String) :
    ∀ v : Json, jlookup (m.map (fun p => (p.1, Json.str p.2))) k = some v →
      ∃ t : String, v = Json.str t := by
  induction m with
  | nil =>
    intro v h
    simp [jlookup] at h
  | cons p ps ih =>
    intro v h
    rw [List.map_cons, jlookup] at h
    cases hr : jlookup (List.map (fun p => (p.1, Json.str p.2)) ps) k with
    | some r =>
      rw [hr] at h
      simp only [] at h
      injection h with h1
      subst h1
      exact ih r hr
    | none =>
      rw [hr] at h
      simp only [] at h
      split at h
      · injection h with h1
        exact ⟨p.2, h1.symm⟩
      · exact absurd h (by simp)

/-- C8: a missing catalog file loads as the empty catalog; the nested
shape loads with every services and groups pair preserved; the legacy
flat shape loads with every pair preserved (and empty groups); and a
save performed after reading a non-empty flat catalog writes the
nested shape (the services map under a "services" key; the empty
groups map is omitted by omitempty), which loads back unchanged. -/
theorem C8_catalog_load_save (m s : List (String × String))
    (g : List (String × List String))
    (hnds : (s.map Prod.fst).Nodup) (hndg : (g.map Prod.fst).Nodup)
    (hndm : (m.map Prod.fst).Nodup) (hm : m ≠ []) :
    LoadData none = some ⟨[], []⟩
    ∧ LoadData (some (Json.obj
        [("services", encodeStringMap s), ("groups", encodeGroups g)])) = some ⟨s, g⟩
    ∧ LoadData (some (encodeStringMap m)) = some ⟨m, []⟩
    ∧ SaveData ⟨m, []⟩ = Json.obj [("services", encodeStringMap m)]
    ∧ LoadData (some (SaveData ⟨m, []⟩)) = some ⟨m, []⟩ := by
  have hflat : LoadData (some (encodeStringMap m)) = some ⟨m, []⟩ := by
    simp only [LoadData, encodeStringMap, unmarshalStorageData]
    cases hsv : jlookup (m.map (fun p => (p.1, Json.str p.2))) "services" with
    | some v =>
      obtain ⟨t, rfl⟩ := jlookup_map_str m ("services") v hsv
      simp [decodeStringMap, mapM_dec_enc]
    | none =>
      cases hgr : jlookup (m.map (fun p => (p.1, Json.str p.2))) "groups" with
      | some v =>
        obtain ⟨t, rfl⟩ := jlookup_map_str m ("groups") v hgr
        simp [decodeGroupsMap, decodeStringMap, mapM_dec_enc]
      | none =>
        simp [decodeStringMap, mapM_dec_enc]
  have hsave : SaveData ⟨m, []⟩ = Json.obj [("services", encodeStringMap m)] := by
    simp [SaveData, List.isEmpty_iff, hm]
  refine ⟨rfl, ?_, hflat, hsave, ?_⟩
  · simp only [LoadData, unmarshalStorageData,
      show jlookup [("services", encodeStringMap s), ("groups", encodeGroups g)]
        "services" = some (encodeStringMap s) from rfl,
      show jlookup [("services", encodeStringMap s), ("groups", encodeGroups g)]
        "groups" = some (encodeGroups g) from rfl,
      decodeStringMap_encode, decodeGroupsMap_encode]
    rfl
  · rw [hsave]
    simp only [LoadData, unmarshalStorageData,
      show jlookup [("services", encodeStringMap m)] "services" =
        some (encodeStringMap m) from rfl,
      show jlookup [("services", encodeStringMap m)] "groups" = none from rfl,
      decodeStringMap_encode]
    rfl

theorem C8_catalog_load_save_witness :
    LoadData (some (encodeStringMap [("db", "ssh -L 5432:5432 db")])) =
      some ⟨[("db", "ssh -L 5432:5432 db")], []⟩ :=
  (C8_catalog_load_save [("db", "ssh -L 5432:5432 db")]
    [("db", "ssh -L 5432:5432 db")] [("g", ["db"])]
    (by decide) (by decide) (by decide) (by decide)).2.2.1

theorem dropWhile_head_not (p : Char → Bool) :
    ∀ l : Str, ∀ a : Char, ∀ t : Str, l.dropWhile p = a :: t → p a = false := by
  intro l
  induction l with
  | nil =>
    intro a t h
    simp at h
  | cons c cs ih =>
    intro a t h
    rw [List.dropWhile_cons] at h
    split at h
    · exact ih a t h
    · injection h with h1 h2
      subst h1
      simp_all

theorem goFields_words : ∀ l : Str, ∀ w ∈ goFields l,
    w ≠ [] ∧ ∀ c ∈ w, goIsSpace c = false := by
  intro l
  induction l using goFields.induct with
  | case1 =>
    intro w hw
    simp [goFields] at hw
  | case2 c cs h ih =>
    intro w hw
    rw [goFields] at hw
    simp only [h, if_true] at hw
    exact ih w hw
  | case3 c cs h ih =>
    intro w hw
    rw [goFields] at hw
    simp only [h, if_false] at hw
    rcases List.mem_cons.mp hw with hw1 | hw2
    · subst hw1
      constructor
      · rw [List.takeWhile_cons]
        simp [h]
      · intro d hd
        have := List.mem_takeWhile_imp hd
        simpa using this
    · exact ih w hw2

theorem joinSpace_goFields_len : ∀ l : Str,
    (joinSpace (goFields l)).length ≤ l.length ∧
    (∀ c : Char, ∀ cs : Str, l = c :: cs → goIsSpace c = true →
      (joinSpace (goFields l)).length ≤ cs.length) := by
  intro l
  induction l using goFields.induct with
  | case1 =>
    simp [goFields, joinSpace]
  | case2 c cs h ih =>
    have hg : goFields (c :: cs) = goFields cs := by
      rw [goFields]
      simp [h]
    constructor
    · rw [hg]
      have := ih.1
      simp only [List.length_cons]
      omega
    · intro c2 cs2 heq hsp
      injection heq with h1 h2
      subst h2
      rw [hg]
      exact ih.1
  | case3 c cs h ih =>
    have hg : goFields (c :: cs) =
        ((c :: cs).takeWhile (fun d => !goIsSpace d)) ::
          goFields ((c :: cs).dropWhile (fun d => !goIsSpace d)) := by
      rw [goFields]
      simp [h]
    have hsplit : ((c :: cs).takeWhile (fun d => !goIsSpace d)).length +
        ((c :: cs).dropWhile (fun d => !goIsSpace d)).length = (c :: cs).length := by
      rw [← List.length_append, List.takeWhile_append_dropWhile]
    constructor
    · rw [hg]
      cases hfs : goFields ((c :: cs).dropWhile (fun d => !goIsSpace d)) with
      | nil =>
        simp only [joinSpace]
        omega
      | cons f fs2 =>
        have hrest : (c :: cs).dropWhile (fun d => !goIsSpace d) ≠ [] := by
          intro hnil
          rw [hnil] at hfs
          simp [goFields] at hfs
        obtain ⟨r0, rest2, hr⟩ : ∃ r0 : Char, ∃ rest2 : Str,
            (c :: cs).dropWhile (fun d => !goIsSpace d) = r0 :: rest2 := by
          cases hx : (c :: cs).dropWhile (fun d => !goIsSpace d) with
          | nil => exact absurd hx hrest
          | cons a b => exact ⟨a, b, rfl⟩
        have hr0 : goIsSpace r0 = true := by
          have := dropWhile_head_not (fun d => !goIsSpace d) (c :: cs) r0 rest2 hr
          simpa using this
        have hb := ih.2 r0 rest2 hr hr0
        rw [hfs] at hb
        have hRlen : ((c :: cs).dropWhile (fun d => !goIsSpace d)).length =
            rest2.length + 1 := by
          rw [hr]
          rfl
        have hjoin : joinSpace (((c :: cs).takeWhile (fun d => !goIsSpace d)) :: f :: fs2) =
            ((c :: cs).takeWhile (fun d => !goIsSpace d)) ++ ' ' :: joinSpace (f :: fs2) := rfl
        rw [hjoin]
        have hcons : (c :: cs).length = cs.length + 1 := rfl
        simp only [List.length_append, List.length_cons]
        omega
    · intro c2 cs2 heq hsp
      injection heq with h1 h2
      subst h1
      simp_all

theorem extractErrorMessage_len (l : Str) : (extractErrorMessage l).length ≤ 150 := by
  unfold extractErrorMessage
  split
  · rename_i hgt
    show (joinSpace (goFields (l.take 147 ++ ("...".toList)))).length ≤ 150
    have h1 := (joinSpace_goFields_len (l.take 147 ++ ("...".toList))).1
    have h2 : (l.take 147 ++ ("...".toList)).length = 150 := by
      simp only [List.length_append, List.length_take]
      have : min 147 l.length = 147 := by omega
      simp [this]
    omega
  · rename_i hle
    show (joinSpace (goFields l)).length ≤ 150
    have h1 := (joinSpace_goFields_len l).1
    simp only [not_lt] at hle
    omega

theorem goFields_nil : goFields [] = [] := by
  rw [goFields]

theorem goFields_cons_nonspace (c : Char) (cs : Str) (hc : goIsSpace c = false) :
    goFields (c :: cs) = ((c :: cs).takeWhile (fun d => !goIsSpace d)) ::
      goFields ((c :: cs).dropWhile (fun d => !goIsSpace d)) := by
  rw [goFields]
  simp [hc]

theorem goFields_cons_space (c : Char) (cs : Str) (hc : goIsSpace c = true) :
    goFields (c :: cs) = goFields cs := by
  rw [goFields]
  simp [hc]

theorem takeWhile_all_of (w : Str) (hw : ∀ c ∈ w, goIsSpace c = false) :
    w.takeWhile (fun d => !goIsSpace d) = w := by
  rw [List.takeWhile_eq_self_iff]
  intro x hx
  simp [hw x hx]

theorem dropWhile_all_of (w : Str) (hw : ∀ c ∈ w, goIsSpace c = false) :
    w.dropWhile (fun d => !goIsSpace d) = [] := by
  induction w with
  | nil => rfl
  | cons c cs ih =>
    rw [List.dropWhile_cons]
    have hc := hw c (by simp)
    rw [if_pos (by simp [hc])]
    exact ih (fun x hx => hw x (by simp [hx]))

theorem takeWhile_append_stop (w : Str) (x : Char) (r : Str)
    (hw : ∀ c ∈ w, goIsSpace c = false) (hx : goIsSpace x = true) :
    (w ++ x :: r).takeWhile (fun d => !goIsSpace d) = w := by
  rw [List.takeWhile_append, takeWhile_all_of w hw]
  simp [List.takeWhile_cons, hx]

theorem dropWhile_append_stop (w : Str) (x : Char) (r : Str)
    (hw : ∀ c ∈ w, goIsSpace c = false) (hx : goIsSpace x = true) :
    (w ++ x :: r).dropWhile (fun d => !goIsSpace d) = x :: r := by
  rw [List.dropWhile_append, dropWhile_all_of w hw]
  simp [List.dropWhile_cons, hx]

theorem goFields_single (w : Str) (hne : w ≠ []) (hw : ∀ c ∈ w, goIsSpace c = false) :
    goFields w = [w] := by
  cases w with
  | nil => exact absurd rfl hne
  | cons c cs =>
    rw [goFields_cons_nonspace c cs (hw c (by simp))]
    rw [takeWhile_all_of (c :: cs) hw, dropWhile_all_of (c :: cs) hw]
    rw [goFields_nil]

theorem goFields_join : ∀ ws : List Str,
    (∀ w ∈ ws, w ≠ [] ∧ ∀ c ∈ w, goIsSpace c = false) →
    goFields (joinSpace ws) = ws := by
  intro ws
  induction ws with
  | nil =>
    intro h
    rw [show joinSpace [] = ([] : Str) from rfl, goFields_nil]
  | cons w ws ih =>
    intro h
    have hw := h w (List.mem_cons_self w ws)
    cases ws with
    | nil =>
      show goFields (joinSpace [w]) = [w]
      rw [show joinSpace [w] = w from rfl]
      exact goFields_single w hw.1 hw.2
    | cons w2 ws2 =>
      rw [show joinSpace (w :: w2 :: ws2) = w ++ ' ' :: joinSpace (w2 :: ws2) from rfl]
      cases hwc : w with
      | nil => exact absurd hwc hw.1
      | cons c w2c =>
        subst hwc
        have hc : goIsSpace c = false := hw.2 c (by simp)
        rw [List.cons_append]
        rw [goFields_cons_nonspace c (w2c ++ ' ' :: joinSpace (w2 :: ws2)) hc]
        rw [← List.cons_append]
        rw [takeWhile_append_stop (c :: w2c) ' ' (joinSpace (w2 :: ws2)) hw.2 rfl]
        rw [dropWhile_append_stop (c :: w2c) ' ' (joinSpace (w2 :: ws2)) hw.2 rfl]
        rw [goFields_cons_space ' ' (joinSpace (w2 :: ws2)) rfl]
        rw [ih (fun u hu => h u (List.mem_cons_of_mem (c :: w2c) hu))]

theorem extractErrorMessage_collapse_fix (l : Str) :
    joinSpace (goFields (extractErrorMessage l)) = extractErrorMessage l := by
  unfold extractErrorMessage
  show joinSpace (goFields (joinSpace
      (goFields (if l.length > 150 then l.take 147 ++ ("...".toList) else l)))) = _
  rw [goFields_join (goFields (if l.length > 150 then l.take 147 ++ ("...".toList) else l))
    (goFields_words _)]

theorem addLog_Status (s : Service) (n : Nat) (m : Str) (e : Bool) :
    (addLog s n m e).Status = s.Status := by
  simp only [addLog]
  split
  · rfl
  · split <;> rfl

theorem addLog_Error (s : Service) (n : Nat) (m : Str) (e : Bool) :
    (addLog s n m e).Error = s.Error := by
  simp only [addLog]
  split
  · rfl
  · split <;> rfl

theorem ring_ite_drop {α : Type} (n : Nat) (h : List α) :
    (if h.length > n then h.drop (h.length - n) else h) = h.drop (h.length - n) := by
  split
  · rfl
  · rename_i hn
    have h0 : h.length - n = 0 := by omega
    rw [h0, List.drop_zero]

/-- C5: for a trimmed non-empty stderr line containing one of the
classifier tokens, processing sets lastError to the extracted message,
sets the status to "error" and pushes the message onto the
errorHistory ring; the message is at most 150 characters and is a
fixpoint of whitespace collapsing. A token-free line leaves
errorHistory untouched, never sets the status to "error", and either
leaves lastError unchanged or clears it (the "Forwarding from" path). -/
theorem C5_stderr_classifier (svc : Service) (now : Nat) (line : Str)
    (ht : goTrim line = line) (hne : line ≠ []) :
    (errTokenMatch line = true →
      ((processLine svc now line true).Error = extractErrorMessage line ∧
       (processLine svc now line true).Status = StatusError ∧
       (processLine svc now line true).ErrorHistory =
         (svc.ErrorHistory ++ [(⟨now, extractErrorMessage line⟩ : ErrorEntry)]).drop
           ((svc.ErrorHistory ++ [(⟨now, extractErrorMessage line⟩ : ErrorEntry)]).length - 10) ∧
       (extractErrorMessage line).length ≤ 150 ∧
       joinSpace (goFields (extractErrorMessage line)) = extractErrorMessage line))
    ∧ (errTokenMatch line = false →
      ((processLine svc now line true).ErrorHistory = svc.ErrorHistory ∧
       ((processLine svc now line true).Status = StatusError → svc.Status = StatusError) ∧
       ((processLine svc now line true).Error = svc.Error ∨
        (processLine svc now line true).Error = []))) := by
  have hmain : processLine svc now line true =
      (if errTokenMatch line then
        addError
          (if isSubstr ("Forwarding from".toList) line then
            (if (addLog svc now line true).Status ≠ StatusHealthy then
              { addLog svc now line true with Status := StatusHealthy, Error := [] }
            else addLog svc now line true)
          else addLog svc now line true)
          now (extractErrorMessage line)
       else
        (if isSubstr ("Forwarding from".toList) line then
          (if (addLog svc now line true).Status ≠ StatusHealthy then
            { addLog svc now line true with Status := StatusHealthy, Error := [] }
          else addLog svc now line true)
        else addLog svc now line true)) := by
    unfold processLine
    rw [ht, if_neg hne]
    rfl
  have hs2EH : (if isSubstr ("Forwarding from".toList) line then
      (if (addLog svc now line true).Status ≠ StatusHealthy then
        { addLog svc now line true with Status := StatusHealthy, Error := [] }
      else addLog svc now line true)
    else addLog svc now line true).ErrorHistory = svc.ErrorHistory := by
    split
    · split
      · exact addLog_ErrorHistory svc now line true
      · exact addLog_ErrorHistory svc now line true
    · exact addLog_ErrorHistory svc now line true
  constructor
  · intro htok
    rw [hmain, if_pos htok]
    refine ⟨rfl, rfl, ?_, extractErrorMessage_len line,
      extractErrorMessage_collapse_fix line⟩
    show (if ((if isSubstr ("Forwarding from".toList) line then
        (if (addLog svc now line true).Status ≠ StatusHealthy then
          { addLog svc now line true with Status := StatusHealthy, Error := [] }
        else addLog svc now line true)
      else addLog svc now line true).ErrorHistory ++
        [(⟨now, extractErrorMessage line⟩ : ErrorEntry)]).length > 10 then _ else _) = _
    rw [hs2EH, ring_ite_drop]
  · intro htok
    have htok2 : ¬ errTokenMatch line = true := by simp [htok]
    rw [hmain, if_neg htok2]
    refine ⟨hs2EH, ?_, ?_⟩
    · split
      · split
        · intro hcontr
          have hco : StatusHealthy = StatusError := hcontr
          exact absurd hco (by decide)
        · rw [addLog_Status]
          exact id
      · rw [addLog_Status]
        exact id
    · split
      · split
        · right
          rfl
        · left
          exact addLog_Error svc now line true
      · left
        exact addLog_Error svc now line true

theorem C5_stderr_classifier_witness :
    ((processLine svcRunning 7 ("connection refused by host".toList) true).Status =
      StatusError) ∧
    ((processLine svcRunning 7 ("starting tunnel".toList) true).ErrorHistory =
      svcRunning.ErrorHistory) :=
  ⟨((C5_stderr_classifier svcRunning 7 ("connection refused by host".toList)
      (by decide) (by decide)).1 (by decide)).2.1,
   ((C5_stderr_classifier svcRunning 7 ("starting tunnel".toList)
      (by decide) (by decide)).2 (by decide)).1⟩

theorem matchPortsAt_some (l a b : Str) (h : matchPortsAt l = some (a, b)) :
    (∃ y : Str, l = a ++ ':' :: (b ++ y)) ∧ a ≠ [] ∧ b ≠ [] ∧
    (∀ c ∈ a, c.isDigit = true) ∧ (∀ c ∈ b, c.isDigit = true) := by
  simp only [matchPortsAt] at h
  split at h
  · exact absurd h (by simp)
  · rename_i hne
    split at h
    · rename_i r2 heq
      split at h
      · exact absurd h (by simp)
      · rename_i hbne
        injection h with h1
        injection h1 with ha1 hb1
        subst ha1
        subst hb1
        have hsplit : l = l.takeWhile Char.isDigit ++ l.dropWhile Char.isDigit :=
          (List.takeWhile_append_dropWhile Char.isDigit l).symm
        have hdrop : l.drop (l.takeWhile Char.isDigit).length = l.dropWhile Char.isDigit := by
          nth_rewrite 2 [hsplit]
          rw [List.drop_left]
        rw [hdrop] at heq
        have hr2 : r2 = r2.takeWhile Char.isDigit ++ r2.dropWhile Char.isDigit :=
          (List.takeWhile_append_dropWhile Char.isDigit r2).symm
        refine ⟨⟨r2.dropWhile Char.isDigit, ?_⟩, ?_, ?_, ?_, ?_⟩
        · conv_lhs => rw [hsplit]
          rw [heq, ← hr2]
        · intro hcon
          rw [hcon] at hne
          simp at hne
        · intro hcon
          rw [hcon] at hbne
          simp at hbne
        · intro c hc
          exact List.mem_takeWhile_imp hc
        · intro c hc
          exact List.mem_takeWhile_imp hc
    · exact absurd h (by simp)

theorem matchPortsAt_isSome_of (a b y : Str) (ha : a ≠ []) (hb : b ≠ [])
    (hda : ∀ c ∈ a, c.isDigit = true) (hdb : ∀ c ∈ b, c.isDigit = true) :
    (matchPortsAt (a ++ ':' :: (b ++ y))).isSome = true := by
  have hta : (a ++ ':' :: (b ++ y)).takeWhile Char.isDigit = a := by
    rw [List.takeWhile_append, List.takeWhile_eq_self_iff.mpr hda]
    simp [List.takeWhile_cons]
  simp only [matchPortsAt, hta]
  rw [if_neg (by simp [List.isEmpty_iff, ha])]
  rw [List.drop_left]
  cases b with
  | nil => exact absurd rfl hb
  | cons b0 bt =>
    have hb0 : b0.isDigit = true := hdb b0 (by simp)
    simp only [List.cons_append, List.takeWhile_cons, hb0, if_true]
    simp

theorem findPortMatch_some_exists (s : Str) (r : Str × Str)
    (h : findPortMatch s = some r) : ∃ i : Nat, matchPortsAt (s.drop i) = some r := by
  induction s with
  | nil => simp [findPortMatch] at h
  | cons c cs ih =>
    rw [findPortMatch] at h
    cases hm : matchPortsAt (c :: cs) with
    | some r2 =>
      rw [hm] at h
      simp only [] at h
      injection h with h1
      subst h1
      exact ⟨0, by simpa using hm⟩
    | none =>
      rw [hm] at h
      simp only [] at h
      obtain ⟨i, hi⟩ := ih h
      exact ⟨i + 1, by simpa [List.drop_succ_cons] using hi⟩

theorem findPortMatch_eq_least (s : Str) :
    ∀ i : Nat, (matchPortsAt (s.drop i)).isSome = true →
    (∀ j, j < i → matchPortsAt (s.drop j) = none) →
    findPortMatch s = matchPortsAt (s.drop i) := by
  induction s with
  | nil =>
    intro i hi hmin
    rw [List.drop_nil] at hi
    rw [show matchPortsAt ([] : Str) = none from rfl] at hi
    simp at hi
  | cons c cs ih =>
    intro i hi hmin
    cases i with
    | zero =>
      rw [List.drop_zero] at hi ⊢
      rw [findPortMatch]
      cases hm : matchPortsAt (c :: cs) with
      | some r => simp
      | none =>
        rw [hm] at hi
        simp at hi
    | succ i2 =>
      have h0 : matchPortsAt (c :: cs) = none := by
        have := hmin 0 (Nat.succ_pos i2)
        simpa using this
      rw [findPortMatch, h0]
      rw [List.drop_succ_cons] at hi ⊢
      exact ih i2 hi (fun j hj => by
        have := hmin (j + 1) (by omega)
        rwa [List.drop_succ_cons] at this)

theorem hasPortPair_exists_match (s : Str) (h : hasPortPair s) :
    ∃ i : Nat, (matchPortsAt (s.drop i)).isSome = true := by
  obtain ⟨x, a, b, y, rfl, ha, hb, hda, hdb⟩ := h
  refine ⟨x.length, ?_⟩
  rw [List.drop_left]
  exact matchPortsAt_isSome_of a b y ha hb hda hdb

theorem hasPortPair_of_match (s : Str) (i : Nat) (a b : Str)
    (h : matchPortsAt (s.drop i) = some (a, b)) : hasPortPair s := by
  obtain ⟨⟨y, hy⟩, ha, hb, hda, hdb⟩ := matchPortsAt_some _ a b h
  refine ⟨s.take i, a, b, y, ?_, ha, hb, hda, hdb⟩
  rw [← hy, List.take_append_drop]

theorem not_hasPortPair_of_scan (s : Str)
    (h : (List.range s.length).all (fun i => (matchPortsAt (s.drop i)).isNone) = true) :
    ¬ hasPortPair s := by
  intro hp
  obtain ⟨i, hi⟩ := hasPortPair_exists_match s hp
  by_cases hlt : i < s.length
  · have hnone := List.all_eq_true.mp h i (List.mem_range.mpr hlt)
    simp only [Option.isNone_iff_eq_none] at hnone
    rw [hnone] at hi
    simp at hi
  · have hdr : s.drop i = [] := List.drop_eq_nil_of_le (by omega)
    rw [hdr, show matchPortsAt ([] : Str) = none from rfl] at hi
    simp at hi

/-- C7: a command containing a digit-run pair a:b yields, via
ExtractPorts, the capture groups of the regexp match at the leftmost
matching position (no earlier position matches); a command with no
such substring extracts to empty strings and Manager.Start rejects it
with "could not extract ports from command" without touching the
registry or spawning anything. -/
theorem C7_port_extraction (command : Str) :
    (hasPortPair command →
      ∃ i : Nat, ∃ a b : Str, matchPortsAt (command.drop i) = some (a, b) ∧
        (∀ j, j < i → matchPortsAt (command.drop j) = none) ∧
        ExtractPorts command = (a, b) ∧
        (∃ y : Str, command.drop i = a ++ ':' :: (b ++ y)) ∧ a ≠ [] ∧ b ≠ [] ∧
        (∀ c ∈ a, c.isDigit = true) ∧ (∀ c ∈ b, c.isDigit = true))
    ∧ (¬ hasPortPair command →
      (ExtractPorts command = ([], []) ∧
       ∀ stor : Str → Option Str, ∀ reg : Registry, ∀ name : Str, ∀ now : Nat,
         validateServiceName name = none → stor name = some command →
         validateCommand command = none →
         managerStart stor reg name now =
           ⟨some ("could not extract ports from command"), reg, false⟩)) := by
  constructor
  · intro hp
    have hex := hasPortPair_exists_match command hp
    have hi := Nat.find_spec hex
    have hmin : ∀ j, j < Nat.find hex → matchPortsAt (command.drop j) = none := by
      intro j hj
      exact Option.not_isSome_iff_eq_none.mp (Nat.find_min hex hj)
    obtain ⟨⟨a, b⟩, hab⟩ : ∃ r, matchPortsAt (command.drop (Nat.find hex)) = some r :=
      Option.isSome_iff_exists.mp hi
    have hfind := findPortMatch_eq_least command (Nat.find hex) hi hmin
    obtain ⟨hy, ha, hb, hda, hdb⟩ := matchPortsAt_some _ a b hab
    refine ⟨Nat.find hex, a, b, hab, hmin, ?_, hy, ha, hb, hda, hdb⟩
    unfold ExtractPorts
    rw [hfind, hab]
  · intro hnp
    have hnone : findPortMatch command = none := by
      cases hf : findPortMatch command with
      | none => rfl
      | some r =>
        obtain ⟨i, hi⟩ := findPortMatch_some_exists command r hf
        obtain ⟨a, b⟩ := r
        exact absurd (hasPortPair_of_match command i a b hi) hnp
    have hext : ExtractPorts command = ([], []) := by
      unfold ExtractPorts
      rw [hnone]
    refine ⟨hext, ?_⟩
    intro stor reg name now hvn hst hvc
    simp only [managerStart, hvn, hst, hvc]
    rw [hext]
    rfl

theorem C7_port_extraction_witness :
    (∃ i : Nat, ∃ a b : Str,
      matchPortsAt (("kubectl port-forward svc/pg 5432:5433".toList).drop i) =
        some (a, b) ∧
      (∀ j, j < i →
        matchPortsAt (("kubectl port-forward svc/pg 5432:5433".toList).drop j) = none) ∧
      ExtractPorts ("kubectl port-forward svc/pg 5432:5433".toList) = (a, b) ∧
      (∃ y : Str, ("kubectl port-forward svc/pg 5432:5433".toList).drop i =
        a ++ ':' :: (b ++ y)) ∧ a ≠ [] ∧ b ≠ [] ∧
      (∀ c ∈ a, c.isDigit = true) ∧ (∀ c ∈ b, c.isDigit = true)) ∧
    ExtractPorts ("echo hello".toList) = ([], []) ∧
    managerStart (fun _ => some ("echo hello".toList)) [] ("db".toList) 3 =
      ⟨some ("could not extract ports from command"), [], false⟩ :=
  ⟨(C7_port_extraction ("kubectl port-forward svc/pg 5432:5433".toList)).1
      ⟨("kubectl port-forward svc/pg ".toList), ("5432".toList), ("5433".toList), [],
        by decide, by decide, by decide, by decide, by decide⟩,
   ((C7_port_extraction ("echo hello".toList)).2
      (not_hasPortPair_of_scan ("echo hello".toList) (by decide))).1,
   ((C7_port_extraction ("echo hello".toList)).2
      (not_hasPortPair_of_scan ("echo hello".toList) (by decide))).2
     (fun _ => some ("echo hello".toList)) [] ("db".toList) 3
     (by decide) rfl (by decide)⟩
